import Mathlib

set_option maxRecDepth 8000

/-!
Shallow embedding of the deployment orchestration core of
platform/control-center/control-center.py: the service-group catalog, the
group resolver, the deploy and destroy script synthesizers, manifest image
extraction, pod-signal aggregation and the readiness polling loop.
Python strings are modelled by String, Python lists by List, Python dicts
by association lists, and fallible generators by Option.
-/

/-- Boolean test that the first character list is a prefix of the second,
written out explicitly so that every proof about it stays elementary. -/
def charsStartWith : List Char → List Char → Bool
  | [], _ => true
  | _ :: _, [] => false
  | p :: ps, c :: cs => p == c && charsStartWith ps cs

/-- Boolean substring test on character lists; embeds the Python operator
in on strings. -/
def charsHasSub (pat : List Char) : List Char → Bool
  | [] => charsStartWith pat []
  | c :: cs => charsStartWith pat (c :: cs) || charsHasSub pat cs

/-- Embeds the Python test s.startswith(pat). -/
def strStartsWith (s pat : String) : Bool := charsStartWith pat.data s.data

/-- Embeds the Python test pat in s. -/
def strHasSub (s pat : String) : Bool := charsHasSub pat.data s.data

/-- Embeds the Python test s.endswith(pat). -/
def strEndsWith (s pat : String) : Bool :=
  charsStartWith pat.data.reverse s.data.reverse

/-- Lexicographic comparison of character lists by code point, the order the
Python builtin sorted uses on strings. -/
def charsLe : List Char → List Char → Bool
  | [], _ => true
  | _ :: _, [] => false
  | a :: as, b :: bs => if a < b then true else if a == b then charsLe as bs else false

/-- Lexicographic string comparison by code point. -/
def strLe (s t : String) : Bool := charsLe s.data t.data

/-- The ordering relation the embedded sorts use. -/
def strLeRel : String → String → Prop := fun a b => strLe a b = true

instance : DecidableRel strLeRel := fun a b => by
  unfold strLeRel
  infer_instance

instance : IsTotal String strLeRel := by
  constructor
  intro a b
  have h : ∀ x y : List Char, charsLe x y = true ∨ charsLe y x = true := by
    intro x
    induction x with
    | nil => intro y; left; rfl
    | cons c cs ih =>
      intro y
      cases y with
      | nil => right; rfl
      | cons d ds =>
        rcases lt_trichotomy c d with hlt | heq | hgt
        · left; simp [charsLe, hlt]
        · subst heq
          rcases ih ds with h1 | h1
          · left; simp [charsLe, h1]
          · right; simp [charsLe, h1]
        · right; simp [charsLe, hgt]
  exact h a.data b.data

instance : IsTrans String strLeRel := by
  constructor
  intro a b c
  have h : ∀ x y z : List Char,
      charsLe x y = true → charsLe y z = true → charsLe x z = true := by
    intro x
    induction x with
    | nil => intro y z _ _; rfl
    | cons p ps ih =>
      intro y z hxy hyz
      cases y with
      | nil => simp [charsLe] at hxy
      | cons q qs =>
        cases z with
        | nil => simp [charsLe] at hyz
        | cons r rs =>
          simp only [charsLe] at hxy hyz ⊢
          rcases lt_trichotomy p q with h1 | h1 | h1
          · rcases lt_trichotomy q r with h2 | h2 | h2
            · simp [lt_trans h1 h2]
            · subst h2; simp [h1]
            · simp [lt_asymm h2, beq_eq_false_iff_ne.mpr (ne_of_lt h2).symm] at hyz
          · subst h1
            simp only [lt_irrefl, if_false, beq_self_eq_true, if_true] at hxy
            rcases lt_trichotomy p r with h2 | h2 | h2
            · simp [h2]
            · subst h2
              simp only [lt_irrefl, if_false, beq_self_eq_true, if_true] at hyz ⊢
              exact ih _ _ hxy hyz
            · simp [lt_asymm h2, beq_eq_false_iff_ne.mpr (ne_of_lt h2).symm] at hyz
          · simp [lt_asymm h1, beq_eq_false_iff_ne.mpr (ne_of_lt h1).symm] at hxy
  exact h a.data b.data c.data

instance : IsAntisymm String strLeRel := by
  constructor
  intro a b hab hba
  have h : ∀ x y : List Char, charsLe x y = true → charsLe y x = true → x = y := by
    intro x
    induction x with
    | nil =>
      intro y _ hyx
      cases y with
      | nil => rfl
      | cons d ds => simp [charsLe] at hyx
    | cons c cs ih =>
      intro y hxy hyx
      cases y with
      | nil => simp [charsLe] at hxy
      | cons d ds =>
        simp only [charsLe] at hxy hyx
        rcases lt_trichotomy c d with h1 | h1 | h1
        · simp [lt_asymm h1, beq_eq_false_iff_ne.mpr (ne_of_lt h1).symm] at hyx
        · subst h1
          simp only [lt_irrefl, if_false, beq_self_eq_true, if_true] at hxy hyx
          rw [ih _ hxy hyx]
        · simp [lt_asymm h1, beq_eq_false_iff_ne.mpr (ne_of_lt h1).symm] at hxy
  exact String.ext (h a.data b.data hab hba)

/-- Embeds the Python builtin sorted on a list of strings. -/
def sortStr (l : List String) : List String := List.insertionSort strLeRel l

/-- Embeds the Python idiom sorted(list(set(l))): a sorted list of the
distinct elements of l. -/
def sortDedup (l : List String) : List String := sortStr l.dedup

-- --- Constants (control-center.py lines 22 to 27) ---

/-- Models the absolute repository root that the script computes from its
own location at startup. -/
def REPO_ROOT : String := "/repo"

def K8S_DIR : String := REPO_ROOT ++ "/platform/k8s"

-- --- Service definitions (control-center.py lines 42 to 77) ---

structure ServiceGroup where
  description : String
  helm_releases : List String
  manifests : List String
deriving DecidableEq

/-- The static resource catalog K8S_SERVICE_GROUPS, an insertion-ordered
dict from group name to group data. -/
def K8S_SERVICE_GROUPS : List (String × ServiceGroup) := [
  ("Stateful Backend",
   { description := "PostgreSQL and MinIO for persistent data storage.",
     helm_releases := ["postgres-metastore", "minio"],
     manifests := ["secrets/postgres-secret.yaml", "secrets/minio-secret.yaml"] }),
  ("Messaging",
   { description := "Kafka (via Confluent) and Redis for real-time communication and caching.",
     helm_releases := ["redis"],
     manifests := ["apps/zookeeper.yaml", "apps/kafka.yaml"] }),
  ("Core Applications",
   { description := "The main hexagon orchestrator and hexagonal worker services (hexagon, assistant-worker, agent-tool-worker, etc.)",
     helm_releases := ["api-gateway", "identity-worker"],
     manifests := [
       "config/core-config.yaml", "apps/control-plane.yaml",
       "config/worker-config.yaml", "apps/llm-worker.yaml", "apps/agent-tool-worker.yaml",
       "apps/data-processing-worker.yaml", "apps/interview-worker.yaml",
       "apps/latex-worker.yaml", "apps/resume-worker.yaml",
       "apps/wolfram-kernel.yaml", "apps/main-node.yaml",
       "rbac/main-node-observability-rbac.yaml"] }),
  ("Scheduling App",
   { description := "The AI-powered scheduling model service.",
     helm_releases := [],
     manifests := ["config/scheduling-model-config.yaml", "apps/scheduling-model.yaml"] }),
  ("News Ingestion Job",
   { description := "The scheduled CronJob for ingesting news articles.",
     helm_releases := [],
     manifests := ["config/news-ingestion-config.yaml", "apps/news-ingestion-cronjob.yaml"] })]

/-- Embeds K8S_SERVICE_GROUPS.get(name): dict lookup by key. -/
def groupLookup (name : String) : Option ServiceGroup :=
  (K8S_SERVICE_GROUPS.find? (fun p => p.1 == name)).map (·.2)

/-- The names of the catalog groups, in catalog order. -/
def groupNames : List String := K8S_SERVICE_GROUPS.map (·.1)

-- --- Group resolver: get_group_resources (lines 81 to 90) ---

/-- Embeds get_group_resources: collects the manifests (prefixed with
K8S_DIR) and helm releases of the selected groups, then sorts and
deduplicates both accumulators. An unknown group name contributes the
empty dict, hence nothing. -/
def get_group_resources (selected_groups : List String) : List String × List String :=
  let manifests := selected_groups.flatMap (fun g =>
    (((groupLookup g).map (·.manifests)).getD []).map (fun m => K8S_DIR ++ "/" ++ m))
  let helm_releases := selected_groups.flatMap (fun g =>
    ((groupLookup g).map (·.helm_releases)).getD [])
  (sortDedup manifests, sortDedup helm_releases)

/-- All manifest paths appearing anywhere in the catalog, with the
manifests-root prefix attached. -/
def allManifestPaths : List String :=
  (K8S_SERVICE_GROUPS.flatMap (fun p => p.2.manifests)).map (fun m => K8S_DIR ++ "/" ++ m)

/-- All helm release names appearing anywhere in the catalog. -/
def allReleaseNames : List String :=
  K8S_SERVICE_GROUPS.flatMap (fun p => p.2.helm_releases)

-- --- Script naming (lines 649 to 651 and 844 to 846) ---

/-- Embeds sep.join(parts). -/
def joinWith (sep : String) : List String → String
  | [] => ""
  | [x] => x
  | x :: y :: ys => x ++ sep ++ joinWith sep (y :: ys)

/-- Embeds group.split()[0].lower(): the first whitespace-delimited word of
the group name, lowercased. The catalog only uses single spaces, so the
split is modelled on the space character. -/
def firstWordLower (g : String) : String :=
  ⟨((g.data.dropWhile (fun c => c == ' ')).takeWhile (fun c => !(c == ' '))).map Char.toLower⟩

/-- Embeds the script_name_part expression shared by both generators:
the literal all when the number of selected names equals the catalog size,
otherwise the underscore-join of the first-word-lowercased names. -/
def script_name_part (selected_groups : List String) : String :=
  if selected_groups.length = K8S_SERVICE_GROUPS.length then "all"
  else joinWith "_" (selected_groups.map firstWordLower)

def deploy_script_filename_sh (selected_groups : List String) : String :=
  "deploy_k8s_" ++ script_name_part selected_groups ++ ".sh"

def deploy_script_filename_ps1 (selected_groups : List String) : String :=
  "deploy_k8s_" ++ script_name_part selected_groups ++ ".ps1"

def destroy_script_filename_sh (selected_groups : List String) : String :=
  "destroy_k8s_" ++ script_name_part selected_groups ++ ".sh"

def destroy_script_filename_ps1 (selected_groups : List String) : String :=
  "destroy_k8s_" ++ script_name_part selected_groups ++ ".ps1"

-- --- Deploy script synthesis: generate_k8s_deploy_script (lines 635 to 702),
-- --- bash variant ---

/-- Path classifier used by the deploy generator: "secrets/" in m. -/
def isSecretsPath (m : String) : Bool := strHasSub m "secrets/"

/-- Path classifier: "config/" in m. -/
def isConfigPath (m : String) : Bool := strHasSub m "config/"

/-- Path classifier: "apps/" in m. -/
def isAppsPath (m : String) : Bool := strHasSub m "apps/"

/-- The sorted secrets-and-configs apply list of the deploy script. -/
def deploySecretsConfigs (sel : List String) : List String :=
  sortStr (((get_group_resources sel).1).filter
    (fun m => isSecretsPath m || isConfigPath m))

/-- The sorted application apply list of the deploy script. -/
def deployApps (sel : List String) : List String :=
  sortStr (((get_group_resources sel).1).filter (fun m => isAppsPath m))

/-- The full sequence of manifest paths the deploy script applies, in
script order: secrets and configs first, then application manifests. -/
def deployAppliedManifests (sel : List String) : List String :=
  deploySecretsConfigs sel ++ deployApps sel

def applyLine (m : String) : String := "kubectl apply -f " ++ m

/-- The static helm_charts dict of the generator. -/
def helm_charts : List (String × String) :=
  [("postgres-metastore", "bitnami/postgresql"), ("minio", "minio/minio"),
   ("kafka", "bitnami/kafka"), ("redis", "bitnami/redis")]

/-- The static helm_values dict of the generator. -/
def helm_values : List (String × String) :=
  [("postgres-metastore", "charts/postgres/values.yaml"), ("minio", "charts/minio/values.yaml"),
   ("kafka", "charts/kafka/values.yaml"), ("redis", "charts/redis/values.yaml")]

/-- Dict lookup d.get(k) on a string-valued association list. -/
def dictGet (d : List (String × String)) (k : String) : Option String :=
  (d.find? (fun p => p.1 == k)).map (·.2)

def helmInstallLine (release chart values : String) : String :=
  "helm install " ++ release ++ " " ++ chart ++ " -f " ++ values ++ " --namespace default"

/-- The install line emitted for one release: present only when both the
chart and the values dicts know the release. -/
def helmInstallOpt (release : String) : Option String :=
  match dictGet helm_charts release, dictGet helm_values release with
  | some chart, some values_rel =>
      some (helmInstallLine release chart (K8S_DIR ++ "/" ++ values_rel))
  | _, _ => none

def helmInstallLines (releases : List String) : List String :=
  releases.filterMap helmInstallOpt

def clusterGuardLine : String :=
  "kubectl cluster-info >/dev/null 2>&1 || \x7b echo \x27Cluster offline\x27; exit 1; \x7d"

def joinComma (sel : List String) : String := joinWith ", " sel

/-- The fixed opening lines of the bash deploy script, including the
cluster-reachability guard. -/
def deployPrelude (sel : List String) : List String := [
  "#!/bin/bash",
  "# Deploy script for: " ++ joinComma sel,
  "# This script was generated by the EnginEdge Control Center.",
  "set -e",
  "",
  clusterGuardLine,
  "",
  "echo \x27Starting Kubernetes deployment...\x27",
  ""]

def deployDoneLine : String := "echo \x27Kubernetes deployment finished.\x27"

def helmRepoLines : List String := [
  "helm repo add bitnami https://charts.bitnami.com/bitnami",
  "helm repo add minio https://charts.min.io/",
  "helm repo update",
  ""]

def deploySecretsBlock (sel : List String) : List String :=
  if deploySecretsConfigs sel = [] then []
  else "# --- Applying Secrets and ConfigMaps ---" ::
    ((deploySecretsConfigs sel).map applyLine ++ [""])

def deployHelmBlock (releases : List String) : List String :=
  if releases = [] then []
  else "# --- Installing Helm Charts for 3rd party services ---" ::
    (helmRepoLines ++ (helmInstallLines releases ++ [""]))

def deployAppsBlock (sel : List String) : List String :=
  if deployApps sel = [] then []
  else "# --- Deploying Core Applications ---" ::
    ((deployApps sel).map applyLine ++ [""])

/-- The bash deploy script, as its list of lines. -/
def deployScriptLines (sel : List String) : List String :=
  deployPrelude sel ++ deploySecretsBlock sel ++
    deployHelmBlock (get_group_resources sel).2 ++ deployAppsBlock sel ++ [deployDoneLine]

/-- Embeds generate_k8s_deploy_script, bash variant: returns none on the
two early-return paths (empty selection, or a selection that resolves to
no manifests and no releases), otherwise the written script. -/
def generate_k8s_deploy_script (selected_groups : List String) : Option (List String) :=
  if selected_groups.isEmpty then none
  else if (get_group_resources selected_groups).1.isEmpty &&
          (get_group_resources selected_groups).2.isEmpty then none
  else some (deployScriptLines selected_groups)

-- --- Destroy script synthesis: generate_k8s_destroy_script (lines 830 to
-- --- 923), bash variant ---

/-- The reverse-sorted applications-and-configs delete list of the destroy
script. -/
def destroyAppsConfigs (sel : List String) : List String :=
  (sortStr (((get_group_resources sel).1).filter
    (fun m => isAppsPath m || isConfigPath m))).reverse

/-- The reverse-sorted secrets delete list of the destroy script. -/
def destroySecrets (sel : List String) : List String :=
  (sortStr (((get_group_resources sel).1).filter (fun m => isSecretsPath m))).reverse

/-- The full sequence of manifest paths the destroy script deletes, in
script order: applications and configs first, then secrets. -/
def destroyDeletedManifests (sel : List String) : List String :=
  destroyAppsConfigs sel ++ destroySecrets sel

def deleteLine (m : String) : String :=
  "kubectl delete -f " ++ m ++ " --ignore-not-found=true"

def secretDeleteLine (m : String) : String :=
  "[ -f " ++ m ++ " ] && kubectl delete -f " ++ m ++ " --ignore-not-found=true || true"

def helmDeleteLine (r : String) : String :=
  "helm status " ++ r ++ " --namespace default >/dev/null 2>&1 && helm delete " ++
    r ++ " --namespace default || true"

def destroyPrelude (sel : List String) : List String := [
  "#!/bin/bash",
  "# Destroys selected application components from Kubernetes.",
  "set -e",
  "",
  clusterGuardLine,
  "",
  "echo \x27Starting Kubernetes teardown for: " ++ (joinComma sel ++ "...\x27"),
  ""]

def destroyAppsBlock (sel : List String) : List String :=
  if destroyAppsConfigs sel = [] then []
  else "# --- Deleting Applications and ConfigMaps ---" ::
    ((destroyAppsConfigs sel).map deleteLine ++ [""])

def destroyHelmBlock (releases : List String) : List String :=
  if releases = [] then []
  else "# --- Deleting Helm Releases ---" :: (releases.map helmDeleteLine ++ [""])

def destroySecretsBlock (sel : List String) : List String :=
  if destroySecrets sel = [] then []
  else "# --- Deleting Secrets ---" :: ((destroySecrets sel).map secretDeleteLine ++ [""])

def pvcDeleteLine : String := "kubectl delete pvc --all -n default --ignore-not-found=true"

def pvcPreserveLine : String :=
  "echo \x27PersistentVolumeClaims preserved (wolfram-state and other PVCs retained).\x27"

def destroyPvcBlock (preserve_pvc : Bool) : List String :=
  if preserve_pvc then [pvcPreserveLine]
  else ["# --- Deleting PersistentVolumeClaims ---", pvcDeleteLine, ""]

def destroyDoneLine : String := "echo \x27Kubernetes teardown finished.\x27"

/-- The bash destroy script, as its list of lines. -/
def destroyScriptLines (sel : List String) (preserve_pvc : Bool) : List String :=
  destroyPrelude sel ++ destroyAppsBlock sel ++
    destroyHelmBlock (get_group_resources sel).2 ++ destroySecretsBlock sel ++
    destroyPvcBlock preserve_pvc ++ [destroyDoneLine]

/-- Embeds generate_k8s_destroy_script, bash variant, with the same two
early-return paths as the deploy generator. -/
def generate_k8s_destroy_script (selected_groups : List String)
    (preserve_pvc : Bool) : Option (List String) :=
  if selected_groups.isEmpty then none
  else if (get_group_resources selected_groups).1.isEmpty &&
          (get_group_resources selected_groups).2.isEmpty then none
  else some (destroyScriptLines selected_groups preserve_pvc)

-- --- Image extraction: _extract_images_from_manifests (lines 256 to 284) ---

/-- The pod-template part of a manifest document: the optional image field
of each container and init-container. A missing template is the empty
record, matching the empty-dict defaults of the Python navigation. -/
structure PodTemplateSpec where
  containers : List (Option String)
  initContainers : List (Option String)
deriving DecidableEq

def emptyTemplate : PodTemplateSpec := ⟨[], []⟩

/-- One structured document of a manifest stream: its kind, the template
found at spec.template.spec, and the one found at
spec.jobTemplate.spec.template.spec. -/
structure ManifestDoc where
  kind : String
  templateSpec : PodTemplateSpec
  jobTemplateSpec : PodTemplateSpec
deriving DecidableEq

def workloadKinds : List String := ["Deployment", "StatefulSet", "DaemonSet", "Job", "CronJob"]

/-- Embeds image.split("@")[0]: the part of the reference before the first
digest separator. -/
def stripDigest (image : String) : String :=
  ⟨image.data.takeWhile (fun c => !(c == '@'))⟩

/-- The image references one document contributes, digest-stripped: for a
workload kind, every container and init-container image of its pod
template (the job template for a CronJob); nothing otherwise. -/
def docImages (doc : ManifestDoc) : List String :=
  if workloadKinds.contains doc.kind then
    let tpl := if doc.kind == "CronJob" then doc.jobTemplateSpec else doc.templateSpec
    (tpl.containers.filterMap id ++ tpl.initContainers.filterMap id).map stripDigest
  else []

/-- Embeds _extract_images_from_manifests. A manifest file is none when it
is unreadable or malformed (the Python except-continue path) and otherwise
its list of parsed documents. The collected references are filtered to
those containing a tag separator and ending in the latest tag, then
deduplicated and sorted. -/
def _extract_images_from_manifests
    (manifest_files : List (Option (List ManifestDoc))) : List String :=
  let images := manifest_files.flatMap (fun f => (f.getD []).flatMap docImages)
  sortDedup (images.filter (fun img => strHasSub img ":" && strEndsWith img ":latest"))

/-- The tag of an image reference: the text after its last colon. Used only
to state the claim that every returned reference has tag latest. -/
def tagAfterLastColon (s : String) : String :=
  ⟨(s.data.reverse.takeWhile (fun c => !(c == ':'))).reverse⟩

/-- A manifest document whose only image reference is digest-pinned. -/
def digestPinnedDoc : ManifestDoc :=
  ⟨"Deployment", ⟨[some "app:latest@sha256:abc"], []⟩, emptyTemplate⟩

-- --- Pod signal aggregation inside wait_for_readiness (lines 496 to 534) ---

structure OwnerReference where
  kind : String
  name : String
deriving DecidableEq

/-- The state dict of one container status: each field is some r when the
corresponding key is present, with r the optional reason inside it. -/
structure ContainerState where
  waiting : Option (Option String)
  terminated : Option (Option String)
deriving DecidableEq

structure ContainerStatus where
  restartCount : Nat
  state : ContainerState
deriving DecidableEq

structure PodInfo where
  name : String
  ownerReferences : List OwnerReference
  containerStatuses : List ContainerStatus
deriving DecidableEq

/-- Generic dict get on an association list. -/
def dget {α : Type} (d : List (String × α)) (k : String) : Option α :=
  (d.find? (fun p => p.1 == k)).map (·.2)

/-- Generic dict set: overwrites the binding for the key. -/
def dset {α : Type} (d : List (String × α)) (k : String) (v : α) : List (String × α) :=
  d.filter (fun p => !(p.1 == k)) ++ [(k, v)]

/-- Generic dict membership: k in d. -/
def dhas {α : Type} (d : List (String × α)) (k : String) : Bool :=
  (d.find? (fun p => p.1 == k)).isSome

/-- Sum of the container restart counts of a pod. -/
def podRestartSum (pod : PodInfo) : Nat :=
  pod.containerStatuses.foldl (fun acc cs => acc + cs.restartCount) 0

/-- The transient waiting reasons that are filtered out. -/
def transientReasons : List String := ["ContainerCreating", "PodInitializing"]

/-- The container-status scan of one pod: records under the pod name the
reason of each waiting state that is not transient and of each terminated
state, later entries overwriting earlier ones, exactly as the Python dict
assignments do. -/
def podReasonScan (pod : PodInfo) (m0 : List (String × String)) : List (String × String) :=
  pod.containerStatuses.foldl (fun m cs =>
    let m1 := match cs.state.waiting with
      | some r =>
          let reason := r.getD "waiting"
          if transientReasons.contains reason then m else dset m pod.name reason
      | none => m
    match cs.state.terminated with
    | some r => dset m1 pod.name (r.getD "terminated")
    | none => m1) m0

/-- The owner of a pod: the name of the last owner reference whose kind is
ReplicaSet or StatefulSet, as the Python loop keeps overwriting owner. -/
def podOwner (pod : PodInfo) : Option String :=
  pod.ownerReferences.foldl (fun acc ref =>
    if ref.kind == "ReplicaSet" || ref.kind == "StatefulSet" then some ref.name else acc) none

/-- Embeds the owner-name trimming: owner.split("-")[0] when the name
contains a hyphen (the text before the first hyphen), else the name. -/
def trimOwnerHash (owner : String) : String :=
  if owner.data.contains '-' then ⟨owner.data.takeWhile (fun c => !(c == '-'))⟩ else owner

/-- Processing of one pod inside the readiness tick: scan its container
statuses into the shared reason dict, then charge its restart sum to the
trimmed owner name and carry its reason to that name, first one winning. -/
def processPod (acc : List (String × Nat) × List (String × String)) (pod : PodInfo) :
    List (String × Nat) × List (String × String) :=
  let restarts := podRestartSum pod
  let reasonMap := podReasonScan pod acc.2
  match podOwner pod with
  | none => (acc.1, reasonMap)
  | some owner =>
      let op := trimOwnerHash owner
      let restartsMap := dset acc.1 op ((dget acc.1 op).getD 0 + restarts)
      let reasonMap2 := match dget reasonMap pod.name with
        | some r => if r == "" then reasonMap
                    else if dhas reasonMap op then reasonMap else dset reasonMap op r
        | none => reasonMap
      (restartsMap, reasonMap2)

/-- The per-owner restart and reason dicts one readiness tick builds from
the pod list. -/
def aggregate_pod_signals (pods : List PodInfo) :
    List (String × Nat) × List (String × String) :=
  pods.foldl processPod ([], [])

/-- The restart count the readiness table shows for a controller: the
restarts dict entry under the controller name, defaulting to 0. -/
def controllerRestarts (pods : List PodInfo) (controllerName : String) : Nat :=
  ((dget (aggregate_pod_signals pods).1 controllerName)).getD 0

/-- The error reason the readiness table shows for a controller. -/
def controllerReason (pods : List PodInfo) (controllerName : String) : Option String :=
  dget (aggregate_pod_signals pods).2 controllerName

/-- A pod of the deployment agent-tool-worker: its ReplicaSet owner name
carries the deployment name, which itself contains hyphens, followed by
the generated hash suffix. -/
def atwPod : PodInfo :=
  ⟨"agent-tool-worker-7f9c8b-abcde",
   [⟨"ReplicaSet", "agent-tool-worker-7f9c8b"⟩],
   [⟨2, ⟨none, none⟩⟩]⟩

/-- A pod owned directly by the StatefulSet postgres-metastore. -/
def stsPod : PodInfo :=
  ⟨"postgres-metastore-0", [⟨"StatefulSet", "postgres-metastore"⟩], [⟨1, ⟨none, none⟩⟩]⟩

/-- The two pods of the readiness aggregation example in the spec. -/
def webPodA : PodInfo := ⟨"a", [⟨"ReplicaSet", "web-7f9c8"⟩], [⟨2, ⟨none, none⟩⟩]⟩

def webPodB : PodInfo := ⟨"b", [⟨"ReplicaSet", "web-7f9c8"⟩], [⟨1, ⟨none, none⟩⟩]⟩

-- --- Readiness polling loop of wait_for_readiness (lines 439 to 571) ---

/-- One controller row of a readiness tick, as load_statuses builds it. -/
structure ControllerStatus where
  kind : String
  name : String
  ready : Nat
  replicas : Nat
deriving DecidableEq

inductive MonitorExit where
  | converged
  | timedOut
deriving DecidableEq

/-- Embeds is_ready = s.ready >= s.replicas and s.replicas > 0. -/
def controllerIsReady (s : ControllerStatus) : Bool :=
  decide (s.replicas ≤ s.ready) && decide (0 < s.replicas)

/-- The loop break condition total > 0 and ready_count == total. -/
def tickConverged (statuses : List ControllerStatus) : Bool :=
  decide (0 < statuses.length) &&
    (statuses.countP (fun s => controllerIsReady s) == statuses.length)

/-- The polling loop, one tick per second: at tick t it first tests
convergence, then the timeout, then sleeps and repeats. The fuel argument
only bounds the recursion; timeout_seconds + 1 ticks always suffice. -/
def monitorLoop (env : Nat → List ControllerStatus) (timeout_seconds : Nat) :
    Nat → Nat → Option (Nat × MonitorExit)
  | 0, _ => none
  | fuel + 1, t =>
      if tickConverged (env t) then some (t, MonitorExit.converged)
      else if timeout_seconds ≤ t then some (t, MonitorExit.timedOut)
      else monitorLoop env timeout_seconds fuel (t + 1)

/-- Embeds the polling loop of wait_for_readiness over an environment
giving the controller rows each tick observes; elapsed time is the tick
count, since the loop sleeps one second per tick. -/
def wait_for_readiness (env : Nat → List ControllerStatus)
    (timeout_seconds : Nat) : Option (Nat × MonitorExit) :=
  monitorLoop env timeout_seconds (timeout_seconds + 1) 0

/-- The default of the timeout_seconds parameter. -/
def defaultTimeoutSeconds : Nat := 600

/-- An environment with a single Deployment at desired 1, ready 1. -/
def singleReadyDeploymentEnv : Nat → List ControllerStatus :=
  fun _ => [⟨"Deployment", "app", 1, 1⟩]

-- --- Claim-side line classifiers for the script-ordering claims ---

def isApplyCmd (l : String) : Bool := strStartsWith l "kubectl apply -f "

def isSecCfgApplyCmd (l : String) : Bool :=
  isApplyCmd l && (strHasSub l "secrets/" || strHasSub l "config/")

def isAppApplyCmd (l : String) : Bool := isApplyCmd l && strHasSub l "apps/"

def isHelmInstallCmd (l : String) : Bool := strStartsWith l "helm install "

def isHelmRepoCmd (l : String) : Bool := strStartsWith l "helm repo "

/-- The phase-ordering contract of the bash deploy script: it opens with
the fixed prelude whose sixth line is the cluster-reachability guard, ends
with the completion marker, and splits into a secrets-and-configs phase, a
helm phase whose repository additions precede its install commands, and an
application phase; each phase carries the apply and install commands of
its own kind and no command of the other kinds. -/
def DeployScriptPhaseOrdered (sel : List String) (script : List String) : Prop :=
  ∃ p1 q1 q2 p3,
    script = deployPrelude sel ++ p1 ++ (q1 ++ q2) ++ p3 ++ [deployDoneLine] ∧
    script.take 9 = deployPrelude sel ∧
    script[5]? = some clusterGuardLine ∧
    script.getLast? = some deployDoneLine ∧
    (∀ m ∈ (get_group_resources sel).1,
      (isSecretsPath m || isConfigPath m) = true → applyLine m ∈ p1) ∧
    (∀ r ∈ (get_group_resources sel).2, ∀ chart values_rel,
      dictGet helm_charts r = some chart → dictGet helm_values r = some values_rel →
      helmInstallLine r chart (K8S_DIR ++ "/" ++ values_rel) ∈ q2) ∧
    (∀ m ∈ (get_group_resources sel).1, isAppsPath m = true → applyLine m ∈ p3) ∧
    ((get_group_resources sel).2 ≠ [] →
      "helm repo add bitnami https://charts.bitnami.com/bitnami" ∈ q1 ∧
      "helm repo add minio https://charts.min.io/" ∈ q1) ∧
    (∀ l ∈ deployPrelude sel,
      isApplyCmd l = false ∧ isHelmInstallCmd l = false ∧ isHelmRepoCmd l = false) ∧
    (∀ l ∈ p1, isHelmInstallCmd l = false ∧ isHelmRepoCmd l = false ∧ isAppApplyCmd l = false) ∧
    (∀ l ∈ q1, isHelmInstallCmd l = false ∧ isApplyCmd l = false) ∧
    (∀ l ∈ q2, isHelmRepoCmd l = false ∧ isApplyCmd l = false) ∧
    (∀ l ∈ p3, isSecCfgApplyCmd l = false ∧ isHelmInstallCmd l = false ∧ isHelmRepoCmd l = false) ∧
    (isApplyCmd deployDoneLine = false ∧ isHelmInstallCmd deployDoneLine = false ∧
      isHelmRepoCmd deployDoneLine = false)

-- --- Helper lemmas on the string utilities ---

theorem charsStartWith_append_of_le :
    ∀ (p l t : List Char), p.length ≤ l.length →
      charsStartWith p (l ++ t) = charsStartWith p l := by
  intro p
  induction p with
  | nil => intro l t _; rfl
  | cons c cs ih =>
    intro l t h
    cases l with
    | nil => simp at h
    | cons d ds =>
      simp only [List.cons_append, charsStartWith, List.append_eq]
      rw [ih ds t (by simpa using h)]

theorem charsStartWith_self_append :
    ∀ (p t : List Char), charsStartWith p (p ++ t) = true := by
  intro p
  induction p with
  | nil => intro t; rfl
  | cons c cs ih => intro t; simp [charsStartWith, ih]

theorem charsStartWith_iff_append :
    ∀ (p l : List Char), charsStartWith p l = true ↔ ∃ t, l = p ++ t := by
  intro p
  induction p with
  | nil =>
    intro l
    constructor
    · intro _; exact ⟨l, rfl⟩
    · intro _; rfl
  | cons c cs ih =>
    intro l
    cases l with
    | nil =>
      simp only [charsStartWith]
      constructor
      · intro h; cases h
      · rintro ⟨t, ht⟩; cases ht
    | cons d ds =>
      simp only [charsStartWith, Bool.and_eq_true, beq_iff_eq]
      constructor
      · rintro ⟨rfl, h⟩
        rcases (ih ds).mp h with ⟨t, rfl⟩
        exact ⟨t, rfl⟩
      · rintro ⟨t, ht⟩
        rw [List.cons_append] at ht
        injection ht with hd hds
        subst hd
        subst hds
        exact ⟨rfl, (ih (cs ++ t)).mpr ⟨t, rfl⟩⟩

theorem strStartsWith_lit_append (a X pat : String)
    (h : pat.data.length ≤ a.data.length) :
    strStartsWith (a ++ X) pat = strStartsWith a pat := by
  unfold strStartsWith
  rw [String.data_append]
  exact charsStartWith_append_of_le _ _ _ h

theorem append_ne_of_not_startsWith (a X b : String)
    (h : strStartsWith b a = false) : a ++ X ≠ b := by
  intro he
  have hd : a.data ++ X.data = b.data := by
    rw [← String.data_append, he]
  have : strStartsWith b a = true := by
    unfold strStartsWith
    rw [← hd]
    exact charsStartWith_self_append _ _
  rw [h] at this
  cases this

-- --- Helper lemmas on the sorting utilities ---

theorem mem_sortStr {a : String} {l : List String} : a ∈ sortStr l ↔ a ∈ l := by
  simp [sortStr, List.mem_insertionSort]

theorem sortStr_sorted (l : List String) : (sortStr l).Sorted strLeRel :=
  List.sorted_insertionSort strLeRel l

theorem mem_sortDedup {a : String} {l : List String} : a ∈ sortDedup l ↔ a ∈ l := by
  simp [sortDedup, mem_sortStr, List.mem_dedup]

theorem sortDedup_sorted (l : List String) : (sortDedup l).Sorted strLeRel :=
  List.sorted_insertionSort strLeRel l.dedup

theorem sortDedup_nodup (l : List String) : (sortDedup l).Nodup :=
  (List.perm_insertionSort strLeRel l.dedup).nodup_iff.mpr l.nodup_dedup

theorem sortDedup_eq_of_mem_iff {l₁ l₂ : List String}
    (h : ∀ x, x ∈ l₁ ↔ x ∈ l₂) : sortDedup l₁ = sortDedup l₂ := by
  refine List.eq_of_perm_of_sorted ?_ (sortDedup_sorted l₁) (sortDedup_sorted l₂)
  refine (List.perm_ext_iff_of_nodup (sortDedup_nodup l₁) (sortDedup_nodup l₂)).mpr ?_
  intro x
  rw [mem_sortDedup, mem_sortDedup]
  exact h x

-- --- Helper lemmas on the group resolver ---

theorem flatMap_eq_flatMap_filter {β : Type} {f : String → List β} {p : String → Bool}
    (hf : ∀ g, p g = false → f g = []) :
    ∀ sel : List String, sel.flatMap f = (sel.filter p).flatMap f := by
  intro sel
  induction sel with
  | nil => rfl
  | cons g t ih =>
    cases hp : p g with
    | false => simp [List.filter_cons, hp, hf g hp, ih]
    | true => simp [List.filter_cons, hp, ih]

theorem groupLookup_mem {g : String} {grp : ServiceGroup}
    (h : groupLookup g = some grp) : (g, grp) ∈ K8S_SERVICE_GROUPS := by
  unfold groupLookup at h
  rcases Option.map_eq_some'.mp h with ⟨p, hp, rfl⟩
  have hmem := List.mem_of_find?_eq_some hp
  have hkey := List.find?_some hp
  simp only [beq_iff_eq] at hkey
  rw [← hkey]
  exact hmem

theorem manifests_subset_catalog (sel : List String) :
    ∀ m ∈ (get_group_resources sel).1, m ∈ allManifestPaths := by
  intro m hm
  unfold get_group_resources at hm
  simp only at hm
  rw [mem_sortDedup] at hm
  rcases List.mem_flatMap.mp hm with ⟨g, _, hmem⟩
  rcases List.mem_map.mp hmem with ⟨m0, hm0, rfl⟩
  cases hg : groupLookup g with
  | none => rw [hg] at hm0; cases hm0
  | some grp =>
    rw [hg] at hm0
    simp only [Option.map_some', Option.getD_some] at hm0
    have : (g, grp) ∈ K8S_SERVICE_GROUPS := groupLookup_mem hg
    unfold allManifestPaths
    exact List.mem_map_of_mem _ (List.mem_flatMap.mpr ⟨(g, grp), this, hm0⟩)

theorem releases_subset_catalog (sel : List String) :
    ∀ r ∈ (get_group_resources sel).2, r ∈ allReleaseNames := by
  intro r hr
  unfold get_group_resources at hr
  simp only at hr
  rw [mem_sortDedup] at hr
  rcases List.mem_flatMap.mp hr with ⟨g, _, hmem⟩
  cases hg : groupLookup g with
  | none => rw [hg] at hmem; cases hmem
  | some grp =>
    rw [hg] at hmem
    simp only [Option.map_some', Option.getD_some] at hmem
    have : (g, grp) ∈ K8S_SERVICE_GROUPS := groupLookup_mem hg
    unfold allReleaseNames
    exact List.mem_flatMap.mpr ⟨(g, grp), this, hmem⟩

theorem get_group_resources_def (sel : List String) :
    get_group_resources sel =
      (sortDedup (sel.flatMap (fun g =>
         (((groupLookup g).map (·.manifests)).getD []).map (fun m => K8S_DIR ++ "/" ++ m))),
       sortDedup (sel.flatMap (fun g => ((groupLookup g).map (·.helm_releases)).getD []))) := rfl

-- --- Claim C3 ---

/-- Claim C3: for all selections G1 and G2, the manifest-path list and the
release-name list returned for the concatenated selection equal the
deduplicated sorted union of the lists returned for G1 and for G2
separately, and both returned lists are duplicate-free and sorted. -/
theorem get_group_resources_union_c3 : ∀ G1 G2 : List String,
    (get_group_resources (G1 ++ G2)).1 =
      sortDedup ((get_group_resources G1).1 ++ (get_group_resources G2).1) ∧
    (get_group_resources (G1 ++ G2)).2 =
      sortDedup ((get_group_resources G1).2 ++ (get_group_resources G2).2) ∧
    (get_group_resources (G1 ++ G2)).1.Nodup ∧
    (get_group_resources (G1 ++ G2)).2.Nodup ∧
    (get_group_resources (G1 ++ G2)).1.Sorted strLeRel ∧
    (get_group_resources (G1 ++ G2)).2.Sorted strLeRel := by
  intro G1 G2
  simp only [get_group_resources_def]
  refine ⟨?_, ?_, sortDedup_nodup _, sortDedup_nodup _, sortDedup_sorted _, sortDedup_sorted _⟩
  · apply sortDedup_eq_of_mem_iff
    intro x
    rw [List.flatMap_append]
    simp [List.mem_append, mem_sortDedup]
  · apply sortDedup_eq_of_mem_iff
    intro x
    rw [List.flatMap_append]
    simp [List.mem_append, mem_sortDedup]

-- --- Claim C8 ---

/-- Claim C8: get_group_resources is total and skips unknown group names
silently, so resolving any list equals resolving only its known names. -/
theorem get_group_resources_unknown_skipped_c8 : ∀ sel : List String,
    get_group_resources sel =
      get_group_resources (sel.filter (fun g => (groupLookup g).isSome)) := by
  intro sel
  rw [get_group_resources_def, get_group_resources_def]
  have h1 : ∀ g, ((groupLookup g).isSome : Bool) = false →
      (((groupLookup g).map (·.manifests)).getD []).map
        (fun m => K8S_DIR ++ "/" ++ m) = [] := by
    intro g hg
    cases h : groupLookup g with
    | none => simp [h]
    | some grp => rw [h] at hg; simp at hg
  have h2 : ∀ g, ((groupLookup g).isSome : Bool) = false →
      ((groupLookup g).map (·.helm_releases)).getD [] = [] := by
    intro g hg
    cases h : groupLookup g with
    | none => simp [h]
    | some grp => rw [h] at hg; simp at hg
  rw [← flatMap_eq_flatMap_filter h1 sel, ← flatMap_eq_flatMap_filter h2 sel]

-- --- Claim C4 ---

/-- Claim C4 (code-bug evaluation): the monitor truncates an owner name at
its first hyphen, so the pod of ReplicaSet agent-tool-worker-7f9c8b is
charged to the name agent and the deployment row agent-tool-worker sees a
restart count of 0, although the claim and the code comment require the
trailing hash suffix to be stripped; a StatefulSet owner name is likewise
truncated instead of kept whole. The single-word example of the spec,
two web-7f9c8 pods with 2 and 1 restarts aggregating to 3 under web,
still evaluates as claimed. -/
theorem readiness_attribution_code_eval_c4 :
    trimOwnerHash "agent-tool-worker-7f9c8b" = "agent" ∧
    controllerRestarts [atwPod] "agent-tool-worker" = 0 ∧
    controllerRestarts [atwPod] "agent" = 2 ∧
    trimOwnerHash "postgres-metastore" = "postgres" ∧
    controllerRestarts [stsPod] "postgres-metastore" = 0 ∧
    controllerRestarts [webPodA, webPodB] "web" = 3 := by decide

-- --- Claim C5 ---

theorem monitorLoop_spec (env : Nat → List ControllerStatus) (timeout : Nat) :
    ∀ fuel t, t + fuel = timeout + 1 → t ≤ timeout →
      ∃ t' k, monitorLoop env timeout fuel t = some (t', k) ∧ t ≤ t' ∧ t' ≤ timeout ∧
        ((k = MonitorExit.converged ∧ tickConverged (env t') = true ∧
            ∀ u, t ≤ u → u < t' → tickConverged (env u) = false) ∨
         (k = MonitorExit.timedOut ∧ t' = timeout ∧
            ∀ u, t ≤ u → u ≤ timeout → tickConverged (env u) = false)) := by
  intro fuel
  induction fuel with
  | zero => intro t ht hle; omega
  | succ fuel ih =>
    intro t ht hle
    by_cases hconv : tickConverged (env t) = true
    · refine ⟨t, MonitorExit.converged, ?_, le_refl t, hle, Or.inl ⟨rfl, hconv, ?_⟩⟩
      · simp [monitorLoop, hconv]
      · intro u h1 h2; omega
    · have hfalse : tickConverged (env t) = false := by simpa using hconv
      by_cases htime : timeout ≤ t
      · have hteq : t = timeout := by omega
        refine ⟨t, MonitorExit.timedOut, ?_, le_refl t, hle, Or.inr ⟨rfl, hteq, ?_⟩⟩
        · simp [monitorLoop, hfalse, htime]
        · intro u h1 h2
          have hu : u = t := by omega
          rw [hu]
          exact hfalse
      · rcases ih (t + 1) (by omega) (by omega) with ⟨t', k, hrun, h1, h2, h3⟩
        refine ⟨t', k, ?_, by omega, h2, ?_⟩
        · simpa [monitorLoop, hfalse, htime] using hrun
        · rcases h3 with ⟨hk, hc, hmin⟩ | ⟨hk, ht', hall⟩
          · refine Or.inl ⟨hk, hc, ?_⟩
            intro u hu1 hu2
            by_cases heq : u = t
            · rw [heq]; exact hfalse
            · exact hmin u (by omega) hu2
          · refine Or.inr ⟨hk, ht', ?_⟩
            intro u hu1 hu2
            by_cases heq : u = t
            · rw [heq]; exact hfalse
            · exact hall u (by omega) hu2

/-- Claim C5: the polling loop always terminates within the timeout: it
reports convergence at the first tick on which at least one controller
exists and every controller is ready (ready iff desired positive and ready
at least desired), otherwise it reports a timeout exactly at the
configured timeout; with a single Deployment at desired 1 and ready 1 it
converges on the first tick, and the default timeout is 600 seconds.
Neither exit is an error: both are ordinary results. -/
theorem readiness_monitor_terminates_c5 :
    (∀ (env : Nat → List ControllerStatus) (timeout_seconds : Nat), ∃ t k,
        wait_for_readiness env timeout_seconds = some (t, k) ∧ t ≤ timeout_seconds ∧
        ((k = MonitorExit.converged ∧ tickConverged (env t) = true ∧
            ∀ u, u < t → tickConverged (env u) = false) ∨
         (k = MonitorExit.timedOut ∧ t = timeout_seconds ∧
            ∀ u, u ≤ timeout_seconds → tickConverged (env u) = false))) ∧
    (∀ timeout_seconds, wait_for_readiness singleReadyDeploymentEnv timeout_seconds =
        some (0, MonitorExit.converged)) ∧
    (∀ s, controllerIsReady s = true ↔ (0 < s.replicas ∧ s.replicas ≤ s.ready)) ∧
    defaultTimeoutSeconds = 600 := by
  refine ⟨?_, ?_, ?_, rfl⟩
  · intro env timeout
    rcases monitorLoop_spec env timeout (timeout + 1) 0 (by omega) (by omega) with
      ⟨t, k, hrun, _, hle, hcase⟩
    refine ⟨t, k, hrun, hle, ?_⟩
    rcases hcase with ⟨hk, hc, hmin⟩ | ⟨hk, hteq, hall⟩
    · exact Or.inl ⟨hk, hc, fun u hu => hmin u (Nat.zero_le u) hu⟩
    · exact Or.inr ⟨hk, hteq, fun u hu => hall u (Nat.zero_le u) hu⟩
  · intro timeout
    have hconv : tickConverged (singleReadyDeploymentEnv 0) = true := by decide
    unfold wait_for_readiness
    simp [monitorLoop, hconv]
  · intro s
    simp only [controllerIsReady, Bool.and_eq_true, decide_eq_true_eq]
    constructor
    · rintro ⟨h1, h2⟩; exact ⟨h2, h1⟩
    · rintro ⟨h1, h2⟩; exact ⟨h2, h1⟩

/-- Witness for claim C5: the single-Deployment environment converges on
tick 0 at the default timeout. -/
theorem readiness_monitor_terminates_c5_witness :
    wait_for_readiness singleReadyDeploymentEnv 600 = some (0, MonitorExit.converged) :=
  readiness_monitor_terminates_c5.2.1 600

-- --- Claim C6 ---

theorem extract_images_def (files : List (Option (List ManifestDoc))) :
    _extract_images_from_manifests files =
      sortDedup ((files.flatMap (fun f => (f.getD []).flatMap docImages)).filter
        (fun img => strHasSub img ":" && strEndsWith img ":latest")) := rfl

theorem contains_takeWhile_ne_false (l : List Char) (c : Char) :
    ((l.takeWhile (fun x => !(x == c))).contains c) = false := by
  rw [Bool.eq_false_iff]
  intro h
  have hmem : c ∈ l.takeWhile (fun x => !(x == c)) := by simpa using h
  have := List.mem_takeWhile_imp hmem
  simp at this

/-- Counterexample for claim C6: a manifest whose only image reference is
the digest-pinned app:latest@sha256:abc still produces the build candidate
app:latest, so a digest-pinned reference is treated as a build candidate,
contrary to the claim. -/
theorem extract_images_digest_counterexample_c6 :
    _extract_images_from_manifests [some [digestPinnedDoc]] = ["app:latest"] ∧
    digestPinnedDoc.templateSpec.containers = [some "app:latest@sha256:abc"] ∧
    digestPinnedDoc.templateSpec.initContainers = [] ∧
    "app:latest@sha256:abc".data.contains '@' = true := by decide

/-- Claim C6 as amended: image extraction returns a sorted, duplicate-free
list whose every element contains a tag separator, has tag exactly latest
and contains no digest separator; a digest-pinned reference is digest-
stripped before the tag filter rather than discarded; an unreadable or
malformed manifest contributes nothing. -/
theorem extract_images_amended_c6 : ∀ files : List (Option (List ManifestDoc)),
    (_extract_images_from_manifests files).Sorted strLeRel ∧
    (_extract_images_from_manifests files).Nodup ∧
    (∀ img ∈ _extract_images_from_manifests files,
        strHasSub img ":" = true ∧ tagAfterLastColon img = "latest" ∧
        img.data.contains '@' = false) ∧
    _extract_images_from_manifests (none :: files) = _extract_images_from_manifests files := by
  intro files
  refine ⟨sortDedup_sorted _, sortDedup_nodup _, ?_, ?_⟩
  · intro img himg
    rw [extract_images_def, mem_sortDedup] at himg
    rcases List.mem_filter.mp himg with ⟨hmem, hpred⟩
    simp only [Bool.and_eq_true] at hpred
    rcases hpred with ⟨hcolon, hlatest⟩
    refine ⟨hcolon, ?_, ?_⟩
    · unfold strEndsWith at hlatest
      rcases (charsStartWith_iff_append _ _).mp hlatest with ⟨t, ht⟩
      unfold tagAfterLastColon
      rw [ht]
      rfl
    · rcases List.mem_flatMap.mp hmem with ⟨f, _, hin⟩
      rcases List.mem_flatMap.mp hin with ⟨doc, _, hdoc⟩
      unfold docImages at hdoc
      by_cases hk : workloadKinds.contains doc.kind = true
      · rw [if_pos hk] at hdoc
        rcases List.mem_map.mp hdoc with ⟨x, _, rfl⟩
        exact contains_takeWhile_ne_false x.data '@'
      · rw [if_neg hk] at hdoc
        cases hdoc
  · rw [extract_images_def, extract_images_def]
    rfl

/-- Witness for claim C6: the amended theorem applied to the empty manifest
list, giving the unreadable-manifest clause at a concrete input. -/
theorem extract_images_amended_c6_witness :
    _extract_images_from_manifests [none] = _extract_images_from_manifests [] :=
  (extract_images_amended_c6 []).2.2.2

-- --- Claim C9 ---

/-- Counterexample for claim C9: a selection of five names in which one
catalog group appears twice gets the slug all although the catalog group
News Ingestion Job is not selected, because the generator only compares
the length of the selection with the catalog size. -/
theorem script_name_counterexample_c9 :
    script_name_part ["Stateful Backend", "Messaging", "Core Applications",
      "Scheduling App", "Scheduling App"] = "all" ∧
    "News Ingestion Job" ∈ groupNames ∧
    "News Ingestion Job" ∉ (["Stateful Backend", "Messaging", "Core Applications",
      "Scheduling App", "Scheduling App"] : List String) := by decide

/-- Claim C9 as amended: the script filenames are deterministic functions
of the mode and the slug; the slug is all exactly when the length of the
selection equals the catalog size, and otherwise the underscore-join of
the first-word-lowercased names; for a duplicate-free selection of catalog
group names, the slug is all if and only if every catalog group is
selected. -/
theorem script_name_amended_c9 :
    (∀ sel : List String, sel.length = K8S_SERVICE_GROUPS.length →
        script_name_part sel = "all") ∧
    (∀ sel : List String, sel.length ≠ K8S_SERVICE_GROUPS.length →
        script_name_part sel = joinWith "_" (sel.map firstWordLower)) ∧
    (∀ sel : List String, sel.Nodup → (∀ g ∈ sel, g ∈ groupNames) →
        ((∀ g ∈ groupNames, g ∈ sel) ↔ script_name_part sel = "all")) ∧
    (∀ sel : List String,
        deploy_script_filename_sh sel = "deploy_k8s_" ++ script_name_part sel ++ ".sh" ∧
        deploy_script_filename_ps1 sel = "deploy_k8s_" ++ script_name_part sel ++ ".ps1" ∧
        destroy_script_filename_sh sel = "destroy_k8s_" ++ script_name_part sel ++ ".sh" ∧
        destroy_script_filename_ps1 sel = "destroy_k8s_" ++ script_name_part sel ++ ".ps1") := by
  have hlen5 : K8S_SERVICE_GROUPS.length = 5 := rfl
  have hnamesnodup : groupNames.Nodup := by decide
  have hnameslen : groupNames.length = 5 := rfl
  have hfw : ∀ g ∈ groupNames, firstWordLower g ≠ "all" := by decide
  refine ⟨?_, ?_, ?_, fun sel => ⟨rfl, rfl, rfl, rfl⟩⟩
  · intro sel h
    unfold script_name_part
    rw [if_pos h]
  · intro sel h
    unfold script_name_part
    rw [if_neg h]
  · intro sel hnodup hsub
    have hsubF : sel.toFinset ⊆ groupNames.toFinset := by
      intro x hx
      rw [List.mem_toFinset] at hx ⊢
      exact hsub x hx
    constructor
    · intro hall
      have hsupF : groupNames.toFinset ⊆ sel.toFinset := by
        intro x hx
        rw [List.mem_toFinset] at hx ⊢
        exact hall x hx
      have hFeq : sel.toFinset = groupNames.toFinset :=
        Finset.Subset.antisymm hsubF hsupF
      have hlen : sel.length = 5 := by
        rw [← List.toFinset_card_of_nodup hnodup, hFeq,
          List.toFinset_card_of_nodup hnamesnodup, hnameslen]
      unfold script_name_part
      rw [hlen5, if_pos hlen]
    · intro hall
      by_cases hlen : sel.length = K8S_SERVICE_GROUPS.length
      · have hcard : groupNames.toFinset.card ≤ sel.toFinset.card := by
          rw [List.toFinset_card_of_nodup hnodup,
            List.toFinset_card_of_nodup hnamesnodup, hnameslen]
          omega
        have hFeq : sel.toFinset = groupNames.toFinset :=
          Finset.eq_of_subset_of_card_le hsubF hcard
        intro g hg
        have : g ∈ sel.toFinset := by
          rw [hFeq, List.mem_toFinset]
          exact hg
        exact List.mem_toFinset.mp this
      · exfalso
        unfold script_name_part at hall
        rw [if_neg hlen] at hall
        match sel, hsub with
        | [], _ => exact absurd hall.symm (by decide)
        | [g], hsub =>
          have hg : g ∈ groupNames := hsub g (by simp)
          have : joinWith "_" [firstWordLower g] = firstWordLower g := rfl
          rw [List.map_cons, List.map_nil, this] at hall
          exact hfw g hg hall
        | g1 :: g2 :: rest, _ =>
          have hmem : '_' ∈ (joinWith "_" ((g1 :: g2 :: rest).map firstWordLower)).data := by
            rw [List.map_cons, List.map_cons,
              show joinWith "_" (firstWordLower g1 :: firstWordLower g2 :: rest.map firstWordLower) =
                firstWordLower g1 ++ "_" ++
                  joinWith "_" (firstWordLower g2 :: rest.map firstWordLower) from rfl]
            simp [String.data_append]
          rw [hall] at hmem
          simp at hmem

/-- Witness for claim C9: for the duplicate-free selection listing every
catalog group, the slug evaluates to all. -/
theorem script_name_amended_c9_witness :
    (∀ g ∈ groupNames, g ∈ (["Stateful Backend", "Messaging", "Core Applications",
        "Scheduling App", "News Ingestion Job"] : List String)) ↔
      script_name_part ["Stateful Backend", "Messaging", "Core Applications",
        "Scheduling App", "News Ingestion Job"] = "all" :=
  script_name_amended_c9.2.2.1 _ (by decide) (by decide)

-- --- Claim C2 ---

/-- Counterexample for claim C2: for the Scheduling App selection the
destroy script deletes the config manifest first and then the application
manifest, which is the same order the deploy script applies them in, not
the reverse of it. -/
theorem destroy_order_counterexample_c2 :
    destroyDeletedManifests ["Scheduling App"] ≠
      (deployAppliedManifests ["Scheduling App"]).reverse := by decide

/-- Claim C2 as amended: the destroy script deletes applications and
configs in reverse lexical order and then secrets in reverse lexical
order, so its manifest sequence is the exact reverse of the deploy apply
sequence precisely for selections that resolve to no config-marked
manifest paths. -/
theorem destroy_reverse_when_no_config_c2 : ∀ sel : List String,
    (∀ m ∈ (get_group_resources sel).1, isConfigPath m = false) →
    destroyDeletedManifests sel = (deployAppliedManifests sel).reverse := by
  intro sel h
  have hApps : ((get_group_resources sel).1).filter (fun m => isAppsPath m || isConfigPath m) =
      ((get_group_resources sel).1).filter (fun m => isAppsPath m) :=
    List.filter_congr (fun m hm => by rw [h m hm, Bool.or_false])
  have hSec : ((get_group_resources sel).1).filter (fun m => isSecretsPath m || isConfigPath m) =
      ((get_group_resources sel).1).filter (fun m => isSecretsPath m) :=
    List.filter_congr (fun m hm => by rw [h m hm, Bool.or_false])
  unfold destroyDeletedManifests deployAppliedManifests destroyAppsConfigs
    destroySecrets deploySecretsConfigs deployApps
  rw [hApps, hSec, List.reverse_append]

/-- Witness for claim C2: the Stateful Backend selection resolves to secret
manifests only, and its destroy sequence is the reverse of its deploy
sequence. -/
theorem destroy_reverse_when_no_config_c2_witness :
    destroyDeletedManifests ["Stateful Backend"] =
      (deployAppliedManifests ["Stateful Backend"]).reverse :=
  destroy_reverse_when_no_config_c2 ["Stateful Backend"] (by decide)

-- --- Claim C7 ---

theorem destroyAppsConfigs_subset (sel : List String) :
    ∀ m ∈ destroyAppsConfigs sel, m ∈ allManifestPaths := by
  intro m hm
  unfold destroyAppsConfigs at hm
  rw [List.mem_reverse, mem_sortStr] at hm
  exact manifests_subset_catalog sel m (List.mem_of_mem_filter hm)

theorem destroySecrets_subset (sel : List String) :
    ∀ m ∈ destroySecrets sel, m ∈ allManifestPaths := by
  intro m hm
  unfold destroySecrets at hm
  rw [List.mem_reverse, mem_sortStr] at hm
  exact manifests_subset_catalog sel m (List.mem_of_mem_filter hm)

theorem deploySecretsConfigs_subset (sel : List String) :
    ∀ m ∈ deploySecretsConfigs sel, m ∈ allManifestPaths := by
  intro m hm
  unfold deploySecretsConfigs at hm
  rw [mem_sortStr] at hm
  exact manifests_subset_catalog sel m (List.mem_of_mem_filter hm)

theorem deployApps_subset (sel : List String) :
    ∀ m ∈ deployApps sel, m ∈ allManifestPaths := by
  intro m hm
  unfold deployApps at hm
  rw [mem_sortStr] at hm
  exact manifests_subset_catalog sel m (List.mem_of_mem_filter hm)

theorem deleteLine_ne_pvc : ∀ m ∈ allManifestPaths, deleteLine m ≠ pvcDeleteLine := by decide

theorem secretDeleteLine_ne_pvc :
    ∀ m ∈ allManifestPaths, secretDeleteLine m ≠ pvcDeleteLine := by decide

theorem helmDeleteLine_ne_pvc :
    ∀ r ∈ allReleaseNames, helmDeleteLine r ≠ pvcDeleteLine := by decide

theorem pvc_not_in_destroyPrelude (sel : List String) :
    pvcDeleteLine ∉ destroyPrelude sel := by
  intro h
  simp only [destroyPrelude, List.mem_cons, List.not_mem_nil, or_false] at h
  rcases h with h|h|h|h|h|h|h|h
  · exact absurd h (by decide)
  · exact absurd h (by decide)
  · exact absurd h (by decide)
  · exact absurd h (by decide)
  · exact absurd h (by decide)
  · exact absurd h (by decide)
  · exact append_ne_of_not_startsWith _ _ _ (by decide) h.symm
  · exact absurd h (by decide)

theorem pvc_not_in_destroyAppsBlock (sel : List String) :
    pvcDeleteLine ∉ destroyAppsBlock sel := by
  intro h
  unfold destroyAppsBlock at h
  split at h
  · cases h
  · simp only [List.mem_cons, List.mem_append, List.mem_singleton] at h
    rcases h with h | (h | h)
    · exact absurd h (by decide)
    · rcases List.mem_map.mp h with ⟨m, hm, heq⟩
      exact deleteLine_ne_pvc m (destroyAppsConfigs_subset sel m hm) heq
    · exact absurd h (by decide)

theorem pvc_not_in_destroyHelmBlock (sel : List String) :
    pvcDeleteLine ∉ destroyHelmBlock (get_group_resources sel).2 := by
  intro h
  unfold destroyHelmBlock at h
  split at h
  · cases h
  · simp only [List.mem_cons, List.mem_append, List.mem_singleton] at h
    rcases h with h | (h | h)
    · exact absurd h (by decide)
    · rcases List.mem_map.mp h with ⟨r, hr, heq⟩
      exact helmDeleteLine_ne_pvc r (releases_subset_catalog sel r hr) heq
    · exact absurd h (by decide)

theorem pvc_not_in_destroySecretsBlock (sel : List String) :
    pvcDeleteLine ∉ destroySecretsBlock sel := by
  intro h
  unfold destroySecretsBlock at h
  split at h
  · cases h
  · simp only [List.mem_cons, List.mem_append, List.mem_singleton] at h
    rcases h with h | (h | h)
    · exact absurd h (by decide)
    · rcases List.mem_map.mp h with ⟨m, hm, heq⟩
      exact secretDeleteLine_ne_pvc m (destroySecrets_subset sel m hm) heq
    · exact absurd h (by decide)

/-- Claim C7: a generated destroy script contains the PVC deletion command
exactly when the preserve flag is unset, and carries the no-op notice line
instead when the flag is set. -/
theorem destroy_preserve_pvc_c7 : ∀ (sel : List String) (preserve_pvc : Bool)
    (script : List String),
    generate_k8s_destroy_script sel preserve_pvc = some script →
    ((pvcDeleteLine ∈ script) ↔ preserve_pvc = false) ∧
    (preserve_pvc = true → pvcPreserveLine ∈ script) := by
  intro sel preserve script h
  have hscript : script = destroyScriptLines sel preserve := by
    unfold generate_k8s_destroy_script at h
    split at h
    · exact Option.noConfusion h
    · split at h
      · exact Option.noConfusion h
      · exact (Option.some.inj h).symm
  subst hscript
  constructor
  · constructor
    · intro hmem
      by_contra hp
      have hp' : preserve = true := by simpa using hp
      subst hp'
      unfold destroyScriptLines at hmem
      simp only [List.mem_append] at hmem
      rcases hmem with ((((h1|h2)|h3)|h4)|h5)|h6
      · exact pvc_not_in_destroyPrelude sel h1
      · exact pvc_not_in_destroyAppsBlock sel h2
      · exact pvc_not_in_destroyHelmBlock sel h3
      · exact pvc_not_in_destroySecretsBlock sel h4
      · simp only [destroyPvcBlock, if_pos, List.mem_singleton] at h5
        exact absurd h5 (by decide)
      · simp only [List.mem_singleton] at h6
        exact absurd h6 (by decide)
    · intro hp
      subst hp
      unfold destroyScriptLines destroyPvcBlock
      simp
  · intro hp
    subst hp
    unfold destroyScriptLines destroyPvcBlock
    simp

/-- Witness for claim C7: the concrete Stateful Backend destroy script with
the preserve flag set has no PVC deletion command and carries the notice
line. -/
theorem destroy_preserve_pvc_c7_witness :
    ((pvcDeleteLine ∈ destroyScriptLines ["Stateful Backend"] true) ↔ true = false) ∧
    (true = true → pvcPreserveLine ∈ destroyScriptLines ["Stateful Backend"] true) :=
  destroy_preserve_pvc_c7 ["Stateful Backend"] true
    (destroyScriptLines ["Stateful Backend"] true) (by decide)

-- --- Claim C10 ---

theorem catalog_unmarked_is_rbac : ∀ m ∈ allManifestPaths, isSecretsPath m = false →
    isConfigPath m = false → isAppsPath m = false →
    m = "/repo/platform/k8s/rbac/main-node-observability-rbac.yaml" := by decide

/-- Claim C10: a selected manifest whose path carries none of the markers
secrets/, config/ or apps/ is returned by group resolution but omitted
from the deploy apply sequence, from the destroy delete sequence, and from
every apply, delete or guarded-delete line of both generated scripts. The
only such catalog entry is the rbac manifest of the Core Applications
group. -/
theorem unmarked_manifest_omitted_c10 : ∀ (sel : List String) (m : String)
    (preserve_pvc : Bool), m ∈ (get_group_resources sel).1 →
    isSecretsPath m = false → isConfigPath m = false → isAppsPath m = false →
    m ∉ deployAppliedManifests sel ∧ m ∉ destroyDeletedManifests sel ∧
    applyLine m ∉ deployScriptLines sel ∧
    deleteLine m ∉ destroyScriptLines sel preserve_pvc ∧
    secretDeleteLine m ∉ destroyScriptLines sel preserve_pvc := by
  intro sel m preserve hm hs hc ha
  have hcat : m ∈ allManifestPaths := manifests_subset_catalog sel m hm
  have hrbac := catalog_unmarked_is_rbac m hcat hs hc ha
  subst hrbac
  refine ⟨?_, ?_, ?_, ?_, ?_⟩
  · intro h
    rcases List.mem_append.mp h with h | h
    · unfold deploySecretsConfigs at h
      rw [mem_sortStr] at h
      exact absurd (List.mem_filter.mp h).2 (by decide)
    · unfold deployApps at h
      rw [mem_sortStr] at h
      exact absurd (List.mem_filter.mp h).2 (by decide)
  · intro h
    rcases List.mem_append.mp h with h | h
    · unfold destroyAppsConfigs at h
      rw [List.mem_reverse, mem_sortStr] at h
      exact absurd (List.mem_filter.mp h).2 (by decide)
    · unfold destroySecrets at h
      rw [List.mem_reverse, mem_sortStr] at h
      exact absurd (List.mem_filter.mp h).2 (by decide)
  · intro h
    unfold deployScriptLines at h
    simp only [List.mem_append] at h
    rcases h with (((h | h) | h) | h) | h
    · simp only [deployPrelude, List.mem_cons, List.not_mem_nil, or_false] at h
      rcases h with h|h|h|h|h|h|h|h|h
      · exact absurd h (by decide)
      · exact append_ne_of_not_startsWith _ _ _ (by decide) h.symm
      · exact absurd h (by decide)
      · exact absurd h (by decide)
      · exact absurd h (by decide)
      · exact absurd h (by decide)
      · exact absurd h (by decide)
      · exact absurd h (by decide)
      · exact absurd h (by decide)
    · unfold deploySecretsBlock at h
      split at h
      · cases h
      · simp only [List.mem_cons, List.mem_append, List.mem_singleton] at h
        rcases h with h | h | h
        · exact absurd h (by decide)
        · rcases List.mem_map.mp h with ⟨m', hm', heq⟩
          unfold deploySecretsConfigs at hm'
          rw [mem_sortStr] at hm'
          have hmark := (List.mem_filter.mp hm').2
          have hcat' := manifests_subset_catalog sel m' (List.mem_of_mem_filter hm')
          exact (by decide : ∀ x ∈ allManifestPaths,
            (isSecretsPath x || isConfigPath x) = true → applyLine x ≠
              applyLine "/repo/platform/k8s/rbac/main-node-observability-rbac.yaml")
            m' hcat' hmark heq
        · exact absurd h (by decide)
    · unfold deployHelmBlock at h
      split at h
      · cases h
      · rcases List.mem_cons.mp h with h | h
        · exact absurd h (by decide)
        · rcases List.mem_append.mp h with h | h
          · simp only [helmRepoLines, List.mem_cons, List.not_mem_nil, or_false] at h
            rcases h with h | h | h | h
            · exact absurd h (by decide)
            · exact absurd h (by decide)
            · exact absurd h (by decide)
            · exact absurd h (by decide)
          · rcases List.mem_append.mp h with h | h
            · rcases List.mem_filterMap.mp h with ⟨r, hr, hsome⟩
              exact (by decide : ∀ x ∈ allReleaseNames, helmInstallOpt x ≠
                  some (applyLine "/repo/platform/k8s/rbac/main-node-observability-rbac.yaml"))
                r (releases_subset_catalog sel r hr) hsome
            · simp only [List.mem_singleton] at h
              exact absurd h (by decide)
    · unfold deployAppsBlock at h
      split at h
      · cases h
      · simp only [List.mem_cons, List.mem_append, List.mem_singleton] at h
        rcases h with h | h | h
        · exact absurd h (by decide)
        · rcases List.mem_map.mp h with ⟨m', hm', heq⟩
          unfold deployApps at hm'
          rw [mem_sortStr] at hm'
          have hmark := (List.mem_filter.mp hm').2
          have hcat' := manifests_subset_catalog sel m' (List.mem_of_mem_filter hm')
          exact (by decide : ∀ x ∈ allManifestPaths, isAppsPath x = true → applyLine x ≠
              applyLine "/repo/platform/k8s/rbac/main-node-observability-rbac.yaml")
            m' hcat' hmark heq
        · exact absurd h (by decide)
    · simp only [List.mem_singleton] at h
      exact absurd h (by decide)
  · intro h
    unfold destroyScriptLines at h
    simp only [List.mem_append] at h
    rcases h with ((((h | h) | h) | h) | h) | h
    · simp only [destroyPrelude, List.mem_cons, List.not_mem_nil, or_false] at h
      rcases h with h|h|h|h|h|h|h|h
      · exact absurd h (by decide)
      · exact absurd h (by decide)
      · exact absurd h (by decide)
      · exact absurd h (by decide)
      · exact absurd h (by decide)
      · exact absurd h (by decide)
      · exact append_ne_of_not_startsWith _ _ _ (by decide) h.symm
      · exact absurd h (by decide)
    · unfold destroyAppsBlock at h
      split at h
      · cases h
      · simp only [List.mem_cons, List.mem_append, List.mem_singleton] at h
        rcases h with h | h | h
        · exact absurd h (by decide)
        · rcases List.mem_map.mp h with ⟨m', hm', heq⟩
          unfold destroyAppsConfigs at hm'
          rw [List.mem_reverse, mem_sortStr] at hm'
          have hmark := (List.mem_filter.mp hm').2
          have hcat' := manifests_subset_catalog sel m' (List.mem_of_mem_filter hm')
          exact (by decide : ∀ x ∈ allManifestPaths,
            (isAppsPath x || isConfigPath x) = true → deleteLine x ≠
              deleteLine "/repo/platform/k8s/rbac/main-node-observability-rbac.yaml")
            m' hcat' hmark heq
        · exact absurd h (by decide)
    · unfold destroyHelmBlock at h
      split at h
      · cases h
      · simp only [List.mem_cons, List.mem_append, List.mem_singleton] at h
        rcases h with h | h | h
        · exact absurd h (by decide)
        · rcases List.mem_map.mp h with ⟨r, hr, heq⟩
          exact (by decide : ∀ x ∈ allReleaseNames, helmDeleteLine x ≠
              deleteLine "/repo/platform/k8s/rbac/main-node-observability-rbac.yaml")
            r (releases_subset_catalog sel r hr) heq
        · exact absurd h (by decide)
    · unfold destroySecretsBlock at h
      split at h
      · cases h
      · simp only [List.mem_cons, List.mem_append, List.mem_singleton] at h
        rcases h with h | h | h
        · exact absurd h (by decide)
        · rcases List.mem_map.mp h with ⟨m', hm', heq⟩
          unfold destroySecrets at hm'
          rw [List.mem_reverse, mem_sortStr] at hm'
          have hmark := (List.mem_filter.mp hm').2
          have hcat' := manifests_subset_catalog sel m' (List.mem_of_mem_filter hm')
          exact (by decide : ∀ x ∈ allManifestPaths, isSecretsPath x = true →
              secretDeleteLine x ≠
              deleteLine "/repo/platform/k8s/rbac/main-node-observability-rbac.yaml")
            m' hcat' hmark heq
        · exact absurd h (by decide)
    · unfold destroyPvcBlock at h
      split at h
      · simp only [List.mem_singleton] at h
        exact absurd h (by decide)
      · simp only [List.mem_cons, List.not_mem_nil, or_false] at h
        rcases h with h | h | h
        · exact absurd h (by decide)
        · exact absurd h (by decide)
        · exact absurd h (by decide)
    · simp only [List.mem_singleton] at h
      exact absurd h (by decide)
  · intro h
    unfold destroyScriptLines at h
    simp only [List.mem_append] at h
    rcases h with ((((h | h) | h) | h) | h) | h
    · simp only [destroyPrelude, List.mem_cons, List.not_mem_nil, or_false] at h
      rcases h with h|h|h|h|h|h|h|h
      · exact absurd h (by decide)
      · exact absurd h (by decide)
      · exact absurd h (by decide)
      · exact absurd h (by decide)
      · exact absurd h (by decide)
      · exact absurd h (by decide)
      · exact append_ne_of_not_startsWith _ _ _ (by decide) h.symm
      · exact absurd h (by decide)
    · unfold destroyAppsBlock at h
      split at h
      · cases h
      · simp only [List.mem_cons, List.mem_append, List.mem_singleton] at h
        rcases h with h | h | h
        · exact absurd h (by decide)
        · rcases List.mem_map.mp h with ⟨m', hm', heq⟩
          unfold destroyAppsConfigs at hm'
          rw [List.mem_reverse, mem_sortStr] at hm'
          have hmark := (List.mem_filter.mp hm').2
          have hcat' := manifests_subset_catalog sel m' (List.mem_of_mem_filter hm')
          exact (by decide : ∀ x ∈ allManifestPaths,
            (isAppsPath x || isConfigPath x) = true → deleteLine x ≠
              secretDeleteLine "/repo/platform/k8s/rbac/main-node-observability-rbac.yaml")
            m' hcat' hmark heq
        · exact absurd h (by decide)
    · unfold destroyHelmBlock at h
      split at h
      · cases h
      · simp only [List.mem_cons, List.mem_append, List.mem_singleton] at h
        rcases h with h | h | h
        · exact absurd h (by decide)
        · rcases List.mem_map.mp h with ⟨r, hr, heq⟩
          exact (by decide : ∀ x ∈ allReleaseNames, helmDeleteLine x ≠
              secretDeleteLine "/repo/platform/k8s/rbac/main-node-observability-rbac.yaml")
            r (releases_subset_catalog sel r hr) heq
        · exact absurd h (by decide)
    · unfold destroySecretsBlock at h
      split at h
      · cases h
      · simp only [List.mem_cons, List.mem_append, List.mem_singleton] at h
        rcases h with h | h | h
        · exact absurd h (by decide)
        · rcases List.mem_map.mp h with ⟨m', hm', heq⟩
          unfold destroySecrets at hm'
          rw [List.mem_reverse, mem_sortStr] at hm'
          have hmark := (List.mem_filter.mp hm').2
          have hcat' := manifests_subset_catalog sel m' (List.mem_of_mem_filter hm')
          exact (by decide : ∀ x ∈ allManifestPaths, isSecretsPath x = true →
              secretDeleteLine x ≠
              secretDeleteLine "/repo/platform/k8s/rbac/main-node-observability-rbac.yaml")
            m' hcat' hmark heq
        · exact absurd h (by decide)
    · unfold destroyPvcBlock at h
      split at h
      · simp only [List.mem_singleton] at h
        exact absurd h (by decide)
      · simp only [List.mem_cons, List.not_mem_nil, or_false] at h
        rcases h with h | h | h
        · exact absurd h (by decide)
        · exact absurd h (by decide)
        · exact absurd h (by decide)
    · simp only [List.mem_singleton] at h
      exact absurd h (by decide)

/-- Witness for claim C10: the rbac manifest of the Core Applications group
is resolved but never applied by the deploy sequence. -/
theorem unmarked_manifest_omitted_c10_witness :
    "/repo/platform/k8s/rbac/main-node-observability-rbac.yaml" ∉
      deployAppliedManifests ["Core Applications"] :=
  (unmarked_manifest_omitted_c10 ["Core Applications"]
    "/repo/platform/k8s/rbac/main-node-observability-rbac.yaml" false
    (by decide) (by decide) (by decide) (by decide)).1

-- --- Claim C1 ---

/-- Counterexample for claim C1: the Core Applications selection includes
the chart release api-gateway, yet its generated deploy script contains no
helm install command at all, because neither api-gateway nor
identity-worker appears in the static chart and values tables; this
refutes the claim that a helm install command appears for every selected
chart release. -/
theorem deploy_missing_helm_install_c1 :
    "api-gateway" ∈ (get_group_resources ["Core Applications"]).2 ∧
    generate_k8s_deploy_script ["Core Applications"] =
      some (deployScriptLines ["Core Applications"]) ∧
    (deployScriptLines ["Core Applications"]).all (fun l => !(isHelmInstallCmd l)) = true := by
  decide

theorem deployPrelude_no_cmds (sel : List String) :
    ∀ l ∈ deployPrelude sel,
      isApplyCmd l = false ∧ isHelmInstallCmd l = false ∧ isHelmRepoCmd l = false := by
  intro l hl
  simp only [deployPrelude, List.mem_cons, List.not_mem_nil, or_false] at hl
  rcases hl with h|h|h|h|h|h|h|h|h
  · subst h; exact ⟨by decide, by decide, by decide⟩
  · subst h
    refine ⟨?_, ?_, ?_⟩
    · unfold isApplyCmd
      rw [strStartsWith_lit_append _ _ _ (by decide)]
      decide
    · unfold isHelmInstallCmd
      rw [strStartsWith_lit_append _ _ _ (by decide)]
      decide
    · unfold isHelmRepoCmd
      rw [strStartsWith_lit_append _ _ _ (by decide)]
      decide
  · subst h; exact ⟨by decide, by decide, by decide⟩
  · subst h; exact ⟨by decide, by decide, by decide⟩
  · subst h; exact ⟨by decide, by decide, by decide⟩
  · subst h; exact ⟨by decide, by decide, by decide⟩
  · subst h; exact ⟨by decide, by decide, by decide⟩
  · subst h; exact ⟨by decide, by decide, by decide⟩
  · subst h; exact ⟨by decide, by decide, by decide⟩

/-- Claim C1 as amended: every generated deploy script has the phase
structure stated by DeployScriptPhaseOrdered, with a helm install command
for every selected chart release present in the static chart and values
tables; a selected release absent from those tables gets no install
command. -/
theorem deploy_script_phase_order_c1 : ∀ (sel : List String) (script : List String),
    generate_k8s_deploy_script sel = some script →
    DeployScriptPhaseOrdered sel script := by
  intro sel script h
  have hscript : script = deployScriptLines sel := by
    unfold generate_k8s_deploy_script at h
    split at h
    · exact Option.noConfusion h
    · split at h
      · exact Option.noConfusion h
      · exact (Option.some.inj h).symm
  subst hscript
  have hassoc : deployScriptLines sel =
      deployPrelude sel ++ (deploySecretsBlock sel ++
        (deployHelmBlock (get_group_resources sel).2 ++
          (deployAppsBlock sel ++ [deployDoneLine]))) := by
    simp [deployScriptLines, List.append_assoc]
  refine ⟨deploySecretsBlock sel,
    (if (get_group_resources sel).2 = [] then []
     else ["# --- Installing Helm Charts for 3rd party services ---"] ++ helmRepoLines),
    (if (get_group_resources sel).2 = [] then []
     else helmInstallLines (get_group_resources sel).2 ++ [""]),
    deployAppsBlock sel, ?_, ?_, ?_, ?_, ?_, ?_, ?_, ?_, ?_, ?_, ?_, ?_, ?_, ?_⟩
  · unfold deployScriptLines deployHelmBlock
    by_cases hrs : (get_group_resources sel).2 = []
    · simp [hrs]
    · simp [hrs]
  · rw [hassoc]
    have hlen : (deployPrelude sel).length = 9 := by simp [deployPrelude]
    rw [← hlen, List.take_left]
  · rw [hassoc]
    simp [deployPrelude, List.cons_append]
  · rw [show deployScriptLines sel =
      (deployPrelude sel ++ deploySecretsBlock sel ++
        deployHelmBlock (get_group_resources sel).2 ++ deployAppsBlock sel) ++
          [deployDoneLine] from rfl]
    simp [List.getLast?_concat]
  · intro m hm hmark
    have hmem : m ∈ deploySecretsConfigs sel := by
      unfold deploySecretsConfigs
      rw [mem_sortStr]
      exact List.mem_filter.mpr ⟨hm, hmark⟩
    unfold deploySecretsBlock
    rw [if_neg (by intro he; rw [he] at hmem; cases hmem)]
    exact List.mem_cons_of_mem _ (List.mem_append_left _ (List.mem_map_of_mem _ hmem))
  · intro r hr chart values_rel hc hv
    rw [if_neg (List.ne_nil_of_mem hr)]
    refine List.mem_append_left _ (List.mem_filterMap.mpr ⟨r, hr, ?_⟩)
    unfold helmInstallOpt
    rw [hc, hv]
  · intro m hm hmark
    have hmem : m ∈ deployApps sel := by
      unfold deployApps
      rw [mem_sortStr]
      exact List.mem_filter.mpr ⟨hm, hmark⟩
    unfold deployAppsBlock
    rw [if_neg (by intro he; rw [he] at hmem; cases hmem)]
    exact List.mem_cons_of_mem _ (List.mem_append_left _ (List.mem_map_of_mem _ hmem))
  · intro hne
    rw [if_neg hne]
    exact ⟨by simp [helmRepoLines], by simp [helmRepoLines]⟩
  · exact deployPrelude_no_cmds sel
  · intro l hl
    unfold deploySecretsBlock at hl
    split at hl
    · cases hl
    · rcases List.mem_cons.mp hl with h | h
      · subst h; exact ⟨by decide, by decide, by decide⟩
      · rcases List.mem_append.mp h with h | h
        · rcases List.mem_map.mp h with ⟨m', hm', heq⟩
          unfold deploySecretsConfigs at hm'
          rw [mem_sortStr] at hm'
          have hmark := (List.mem_filter.mp hm').2
          have hcat' := manifests_subset_catalog sel m' (List.mem_of_mem_filter hm')
          have h1 := (by decide : ∀ x ∈ allManifestPaths,
            isHelmInstallCmd (applyLine x) = false ∧ isHelmRepoCmd (applyLine x) = false)
            m' hcat'
          have h2 := (by decide : ∀ x ∈ allManifestPaths,
            (isSecretsPath x || isConfigPath x) = true →
              isAppApplyCmd (applyLine x) = false) m' hcat' hmark
          rw [← heq]
          exact ⟨h1.1, h1.2, h2⟩
        · simp only [List.mem_singleton] at h
          subst h; exact ⟨by decide, by decide, by decide⟩
  · intro l hl
    split at hl
    · cases hl
    · rcases List.mem_append.mp hl with h | h
      · simp only [List.mem_singleton] at h
        subst h; exact ⟨by decide, by decide⟩
      · simp only [helmRepoLines, List.mem_cons, List.not_mem_nil, or_false] at h
        rcases h with h | h | h | h
        · subst h; exact ⟨by decide, by decide⟩
        · subst h; exact ⟨by decide, by decide⟩
        · subst h; exact ⟨by decide, by decide⟩
        · subst h; exact ⟨by decide, by decide⟩
  · intro l hl
    split at hl
    · cases hl
    · rcases List.mem_append.mp hl with h | h
      · rcases List.mem_filterMap.mp h with ⟨r, hr, hsome⟩
        have hfact := (by decide : ∀ x ∈ allReleaseNames,
          (helmInstallOpt x).all (fun l => !(isHelmRepoCmd l) && !(isApplyCmd l)) = true)
          r (releases_subset_catalog sel r hr)
        rw [hsome] at hfact
        simp at hfact
        exact hfact
      · simp only [List.mem_singleton] at h
        subst h; exact ⟨by decide, by decide⟩
  · intro l hl
    unfold deployAppsBlock at hl
    split at hl
    · cases hl
    · rcases List.mem_cons.mp hl with h | h
      · subst h; exact ⟨by decide, by decide, by decide⟩
      · rcases List.mem_append.mp h with h | h
        · rcases List.mem_map.mp h with ⟨m', hm', heq⟩
          unfold deployApps at hm'
          rw [mem_sortStr] at hm'
          have hmark := (List.mem_filter.mp hm').2
          have hcat' := manifests_subset_catalog sel m' (List.mem_of_mem_filter hm')
          have h1 := (by decide : ∀ x ∈ allManifestPaths,
            isHelmInstallCmd (applyLine x) = false ∧ isHelmRepoCmd (applyLine x) = false)
            m' hcat'
          have h2 := (by decide : ∀ x ∈ allManifestPaths, isAppsPath x = true →
              isSecCfgApplyCmd (applyLine x) = false) m' hcat' hmark
          rw [← heq]
          exact ⟨h2, h1.1, h1.2⟩
        · simp only [List.mem_singleton] at h
          subst h; exact ⟨by decide, by decide, by decide⟩
  · exact ⟨by decide, by decide, by decide⟩

/-- Witness for claim C1: the phase-order statement holds of the concrete
deploy script of the Stateful Backend selection. -/
theorem deploy_script_phase_order_c1_witness :
    DeployScriptPhaseOrdered ["Stateful Backend"] (deployScriptLines ["Stateful Backend"]) :=
  deploy_script_phase_order_c1 ["Stateful Backend"]
    (deployScriptLines ["Stateful Backend"]) (by decide)
